import Mathlib

/-!
Shallow embedding of the task-store backend in `src/main.py` (a FastAPI
to-do list service with in-memory storage).

Modelling choices:
* A Python task dict `{"id": ..., "text": ...}` becomes the structure `Task`.
* The module-level globals `tasks_storage` and `next_task_id` become the
  fields of `Store`; each handler becomes a function threading a `Store`.
* Python `int` becomes `Int`; `str` stays `String`, with `len` as
  `String.length` (both count code points).
* Python `str.strip()` becomes `pyStrip` (drop leading and trailing
  whitespace characters).
* Pydantic's `Field(..., min_length=1, max_length=200)` validation on
  `TaskCreate.text` becomes `taskCreateValid`: it checks the raw,
  untrimmed string, exactly as pydantic does.
* `raise HTTPException(status_code, detail)` becomes `Except.error` of an
  `HTTPException` value; the handler body after a raise never runs, so the
  store is returned unchanged by the driver `applyOp` in that case.
* `tasks_storage.remove(x)` (remove the first element equal to `x`)
  becomes `List.erase`.
-/

namespace TodoList

/-- One task record, the dict built by `create_task_object`:
keys `"id"` and `"text"`. -/
structure Task where
  id : Int
  text : String
deriving DecidableEq

/-- The pydantic `TaskResponse` model: `id` and `text` fields. -/
structure TaskResponse where
  id : Int
  text : String
deriving DecidableEq

/-- The value of `raise HTTPException(status_code=..., detail=...)`. -/
structure HTTPException where
  status_code : Nat
  detail : String
deriving DecidableEq

/-- The JSON object returned by a successful `DELETE /tasks/{task_id}`. -/
structure DeleteResponse where
  message : String
  deleted_task : TaskResponse
deriving DecidableEq

/-- The module-level mutable state of `main.py`: the globals
`tasks_storage` and `next_task_id`. -/
structure Store where
  tasks_storage : List Task
  next_task_id : Int
deriving DecidableEq

/-- The state right after module load: `tasks_storage = []`,
`next_task_id = 1`. -/
def initStore : Store := ⟨[], 1⟩

/-- Python `str.strip()` on the character list: drop whitespace from the
front, then from the back. -/
def stripChars (l : List Char) : List Char :=
  ((l.dropWhile Char.isWhitespace).reverse.dropWhile Char.isWhitespace).reverse

/-- Python `str.strip()`. -/
def pyStrip (s : String) : String := String.mk (stripChars s.data)

/-- Pydantic validation of `TaskCreate`: `text` must satisfy
`min_length=1, max_length=200`, measured on the raw (untrimmed) string. -/
def taskCreateValid (text : String) : Bool :=
  1 ≤ text.length && text.length ≤ 200

/-- `find_task_by_id`: scan `tasks_storage` for the first task whose
`"id"` equals `task_id`; `None` becomes `none`. -/
def find_task_by_id (s : Store) (task_id : Int) : Option Task :=
  s.tasks_storage.find? (fun t => t.id == task_id)

/-- `create_task_object`: build the task dict with the current
`next_task_id` and the stripped text, then increment the global counter.
Returns the task together with the updated store. -/
def create_task_object (s : Store) (task_text : String) : Task × Store :=
  let task : Task := ⟨s.next_task_id, pyStrip task_text⟩
  (task, { s with next_task_id := s.next_task_id + 1 })

/-- The `POST /tasks` handler `create_task` (after pydantic has accepted
the body): create the task object, append it to `tasks_storage`, return
the `TaskResponse`. -/
def create_task (s : Store) (text : String) : TaskResponse × Store :=
  let r := create_task_object s text
  let s2 := { r.2 with tasks_storage := r.2.tasks_storage ++ [r.1] }
  (⟨r.1.id, r.1.text⟩, s2)

/-- The `GET /tasks` handler `get_tasks`: a `TaskResponse` per stored
task, in storage order; the store is untouched. -/
def get_tasks (s : Store) : List TaskResponse × Store :=
  (s.tasks_storage.map (fun t => TaskResponse.mk t.id t.text), s)

/-- The detail string of the 404 raised by `delete_task`. -/
def notFoundDetail (task_id : Int) : String :=
  "Task with id " ++ toString task_id ++ " not found"

/-- The success message returned by `delete_task`. -/
def deletedMessage (task_id : Int) : String :=
  "Task with id " ++ toString task_id ++ " deleted successfully"

/-- The `DELETE /tasks/{task_id}` handler `delete_task`: find the task by
id; if absent raise 404, otherwise `tasks_storage.remove` it and return
the confirmation payload with the updated store. -/
def delete_task (s : Store) (task_id : Int) :
    Except HTTPException (DeleteResponse × Store) :=
  match find_task_by_id s task_id with
  | none => Except.error ⟨404, notFoundDetail task_id⟩
  | some t =>
      Except.ok (⟨deletedMessage task_id, ⟨t.id, t.text⟩⟩,
        { s with tasks_storage := s.tasks_storage.erase t })

/-- One client request that can mutate the store. A `create` whose body
fails pydantic validation is rejected at the boundary (HTTP 422) and the
handler never runs; a `delete` of an absent id raises 404 and leaves the
globals unchanged. -/
inductive Op where
  | create (text : String)
  | delete (id : Int)

/-- The store after serving one request. -/
def applyOp (s : Store) (op : Op) : Store :=
  match op with
  | Op.create text =>
      if taskCreateValid text then (create_task s text).2 else s
  | Op.delete id =>
      match delete_task s id with
      | Except.ok r => r.2
      | Except.error _ => s

/-- The store after serving a sequence of requests, starting from `s`. -/
def runFrom (s : Store) (ops : List Op) : Store := ops.foldl applyOp s

/-- The store after serving a sequence of requests from module load. -/
def runOps (ops : List Op) : Store := runFrom initStore ops

/-- The ids handed out by the successful creates of a request sequence,
in order, starting from store `s`. -/
def issuedFrom (s : Store) : List Op → List Int
  | [] => []
  | op :: rest =>
      (match op with
       | Op.create text =>
           if taskCreateValid text then [s.next_task_id] else []
       | Op.delete _ => []) ++ issuedFrom (applyOp s op) rest

/-- The ids handed out by the successful creates of a request sequence
served from module load. -/
def issued (ops : List Op) : List Int := issuedFrom initStore ops

/-- The tasks produced by a run of consecutive valid creates whose first
task gets id `startId`. -/
def createdTasks (texts : List String) (startId : Int) : List Task :=
  match texts with
  | [] => []
  | tx :: rest => ⟨startId, pyStrip tx⟩ :: createdTasks rest (startId + 1)

/-- The store invariant maintained by every request: the counter is
positive, every stored id is positive and below the counter, stored ids
are pairwise distinct, and every stored text has at most 200 characters. -/
def StoreInv (s : Store) : Prop :=
  1 ≤ s.next_task_id ∧
  (∀ t ∈ s.tasks_storage, 1 ≤ t.id ∧ t.id < s.next_task_id) ∧
  s.tasks_storage.Pairwise (fun a b => a.id ≠ b.id) ∧
  (∀ t ∈ s.tasks_storage, t.text.length ≤ 200)

/-- `id` does not occur in the store and is below the counter, so no
later request can reintroduce it. -/
def idAbsent (id : Int) (s : Store) : Prop :=
  id < s.next_task_id ∧ ∀ t ∈ s.tasks_storage, t.id ≠ id

-- Sanity examples (concrete evaluations of the embedding).
example : pyStrip "  buy milk  " = "buy milk" := by decide
example : taskCreateValid "   " = true := by decide
example : (runOps [Op.create "   "]).tasks_storage = [⟨1, ""⟩] := by decide
example : (runOps [Op.create "a", Op.create "b"]).tasks_storage =
    [⟨1, "a"⟩, ⟨2, "b"⟩] := by decide
example : delete_task (runOps [Op.create "a"]) 2 =
    Except.error ⟨404, "Task with id 2 not found"⟩ := rfl

/-! ### Helper lemmas about the embedding -/

theorem length_dropWhile_le (p : Char → Bool) (l : List Char) :
    (l.dropWhile p).length ≤ l.length := by
  induction l with
  | nil => simp
  | cons a l ih =>
      by_cases h : p a
      · simp only [List.dropWhile_cons, h, if_true]
        simp only [List.length_cons]
        omega
      · simp [List.dropWhile_cons, h]

theorem stripChars_length_le (l : List Char) :
    (stripChars l).length ≤ l.length := by
  unfold stripChars
  rw [List.length_reverse]
  calc ((l.dropWhile Char.isWhitespace).reverse.dropWhile Char.isWhitespace).length
      ≤ (l.dropWhile Char.isWhitespace).reverse.length :=
        length_dropWhile_le _ _
    _ = (l.dropWhile Char.isWhitespace).length := List.length_reverse _
    _ ≤ l.length := length_dropWhile_le _ _

theorem pyStrip_length_le (s : String) : (pyStrip s).length ≤ s.length :=
  stripChars_length_le s.data

theorem runFrom_nil (s : Store) : runFrom s [] = s := rfl

theorem runFrom_cons (s : Store) (op : Op) (ops : List Op) :
    runFrom s (op :: ops) = runFrom (applyOp s op) ops := rfl

theorem runFrom_append (s : Store) (ops1 ops2 : List Op) :
    runFrom s (ops1 ++ ops2) = runFrom (runFrom s ops1) ops2 :=
  List.foldl_append _ _ _ _

theorem applyOp_create_valid (s : Store) (tx : String)
    (h : taskCreateValid tx = true) :
    applyOp s (Op.create tx) =
      ⟨s.tasks_storage ++ [⟨s.next_task_id, pyStrip tx⟩],
       s.next_task_id + 1⟩ := by
  simp [applyOp, h, create_task, create_task_object]

theorem applyOp_create_invalid (s : Store) (tx : String)
    (h : ¬ taskCreateValid tx = true) :
    applyOp s (Op.create tx) = s := by
  simp [applyOp, h]

theorem applyOp_delete (s : Store) (id : Int) :
    applyOp s (Op.delete id) =
      match find_task_by_id s id with
      | none => s
      | some t => { s with tasks_storage := s.tasks_storage.erase t } := by
  cases h : find_task_by_id s id <;> simp [applyOp, delete_task, h]

theorem next_le_applyOp (s : Store) (op : Op) :
    s.next_task_id ≤ (applyOp s op).next_task_id := by
  cases op with
  | create tx =>
      by_cases h : taskCreateValid tx = true
      · rw [applyOp_create_valid s tx h]
        show s.next_task_id ≤ s.next_task_id + 1
        omega
      · rw [applyOp_create_invalid s tx h]
  | delete id =>
      cases h : find_task_by_id s id <;> rw [applyOp_delete, h]

theorem next_le_runFrom (s : Store) (ops : List Op) :
    s.next_task_id ≤ (runFrom s ops).next_task_id := by
  induction ops generalizing s with
  | nil => exact le_refl _
  | cons op rest ih =>
      exact le_trans (next_le_applyOp s op) (ih (applyOp s op))

theorem issuedFrom_lower (s : Store) (ops : List Op) :
    ∀ i ∈ issuedFrom s ops, s.next_task_id ≤ i := by
  induction ops generalizing s with
  | nil => simp [issuedFrom]
  | cons op rest ih =>
      intro i hi
      cases op with
      | create tx =>
          by_cases h : taskCreateValid tx = true
          · simp only [issuedFrom, h, if_true, List.cons_append,
              List.nil_append, List.mem_cons] at hi
            rcases hi with rfl | hi
            · exact le_refl _
            · exact le_trans (next_le_applyOp s _) (ih _ i hi)
          · simp only [issuedFrom, h, if_false, Bool.false_eq_true,
              List.nil_append] at hi
            exact le_trans (next_le_applyOp s _) (ih _ i hi)
      | delete id =>
          simp only [issuedFrom, List.nil_append] at hi
          exact le_trans (next_le_applyOp s _) (ih _ i hi)

theorem issuedFrom_pairwise (s : Store) (ops : List Op) :
    (issuedFrom s ops).Pairwise (· < ·) := by
  induction ops generalizing s with
  | nil => simp [issuedFrom]
  | cons op rest ih =>
      cases op with
      | create tx =>
          by_cases h : taskCreateValid tx = true
          · simp only [issuedFrom, h, if_true, List.cons_append,
              List.nil_append]
            refine List.pairwise_cons.mpr ⟨?_, ih _⟩
            intro i hi
            have hlo := issuedFrom_lower (applyOp s (Op.create tx)) rest i hi
            rw [applyOp_create_valid s tx h] at hlo
            have : s.next_task_id + 1 ≤ i := hlo
            omega
          · simp only [issuedFrom, h, if_false, Bool.false_eq_true,
              List.nil_append]
            exact ih _
      | delete id =>
          simp only [issuedFrom, List.nil_append]
          exact ih _

theorem issuedFrom_upper (s : Store) (ops : List Op) :
    ∀ i ∈ issuedFrom s ops, i < (runFrom s ops).next_task_id := by
  induction ops generalizing s with
  | nil => simp [issuedFrom]
  | cons op rest ih =>
      intro i hi
      rw [runFrom_cons]
      cases op with
      | create tx =>
          by_cases h : taskCreateValid tx = true
          · simp only [issuedFrom, h, if_true, List.cons_append,
              List.nil_append, List.mem_cons] at hi
            rcases hi with rfl | hi
            · rw [applyOp_create_valid s tx h]
              have hmono := next_le_runFrom
                (⟨s.tasks_storage ++ [⟨s.next_task_id, pyStrip tx⟩],
                  s.next_task_id + 1⟩ : Store) rest
              dsimp only at hmono
              omega
            · exact ih _ i hi
          · simp only [issuedFrom, h, if_false, Bool.false_eq_true,
              List.nil_append] at hi
            exact ih _ i hi
      | delete id =>
          simp only [issuedFrom, List.nil_append] at hi
          exact ih _ i hi

theorem find?_split {α : Type} (p : α → Bool) (l : List α) (t : α)
    (h : l.find? p = some t) :
    ∃ l1 l2, l = l1 ++ t :: l2 ∧ ∀ u ∈ l1, p u = false := by
  induction l with
  | nil => simp [List.find?] at h
  | cons a l ih =>
      by_cases hp : p a
      · rw [List.find?_cons_of_pos _ hp] at h
        obtain rfl : a = t := by injection h
        exact ⟨[], l, rfl, by simp⟩
      · rw [List.find?_cons_of_neg _ hp] at h
        obtain ⟨l1, l2, rfl, hall⟩ := ih h
        refine ⟨a :: l1, l2, rfl, ?_⟩
        intro u hu
        rcases List.mem_cons.mp hu with rfl | hu
        · simpa using hp
        · exact hall u hu

theorem erase_first {α : Type} [DecidableEq α] (l1 l2 : List α) (t : α)
    (h : t ∉ l1) : (l1 ++ t :: l2).erase t = l1 ++ l2 := by
  induction l1 with
  | nil => simp
  | cons a l1 ih =>
      have ha : ¬(a == t) := by
        simp only [beq_iff_eq]
        intro e
        exact h (e ▸ List.mem_cons_self a l1)
      rw [List.cons_append, List.erase_cons_tail ha,
        ih (fun hm => h (List.mem_cons_of_mem a hm)), List.cons_append]

theorem storeInv_init : StoreInv initStore := by
  refine ⟨le_refl 1, ?_, ?_, ?_⟩ <;> simp [initStore]

theorem storeInv_applyOp (s : Store) (op : Op) (h : StoreInv s) :
    StoreInv (applyOp s op) := by
  obtain ⟨h1, h2, h3, h4⟩ := h
  cases op with
  | create tx =>
      by_cases hv : taskCreateValid tx = true
      · rw [applyOp_create_valid s tx hv]
        have hlen : (pyStrip tx).length ≤ 200 := by
          have hb : tx.length ≤ 200 := by
            simp only [taskCreateValid, Bool.and_eq_true, decide_eq_true_eq]
              at hv
            exact hv.2
          exact le_trans (pyStrip_length_le tx) hb
        refine ⟨?_, ?_, ?_, ?_⟩
        · show 1 ≤ s.next_task_id + 1
          omega
        · intro t ht
          simp only [List.mem_append, List.mem_singleton] at ht
          show 1 ≤ t.id ∧ t.id < s.next_task_id + 1
          rcases ht with ht | rfl
          · have := h2 t ht
            omega
          · dsimp only
            omega
        · show (s.tasks_storage ++
            [(⟨s.next_task_id, pyStrip tx⟩ : Task)]).Pairwise
              (fun a b => a.id ≠ b.id)
          rw [List.pairwise_append]
          refine ⟨h3, List.pairwise_singleton _ _, ?_⟩
          intro a ha b hb
          rcases List.mem_singleton.mp hb with rfl
          have := h2 a ha
          show a.id ≠ s.next_task_id
          omega
        · intro t ht
          simp only [List.mem_append, List.mem_singleton] at ht
          rcases ht with ht | rfl
          · exact h4 t ht
          · exact hlen
      · rw [applyOp_create_invalid s tx hv]
        exact ⟨h1, h2, h3, h4⟩
  | delete id =>
      cases hf : find_task_by_id s id with
      | none =>
          rw [applyOp_delete, hf]
          exact ⟨h1, h2, h3, h4⟩
      | some t =>
          rw [applyOp_delete, hf]
          refine ⟨h1, ?_, ?_, ?_⟩
          · intro u hu
            exact h2 u (List.mem_of_mem_erase hu)
          · exact h3.sublist (List.erase_sublist t s.tasks_storage)
          · intro u hu
            exact h4 u (List.mem_of_mem_erase hu)

theorem storeInv_runFrom (s : Store) (ops : List Op) (h : StoreInv s) :
    StoreInv (runFrom s ops) := by
  induction ops generalizing s with
  | nil => exact h
  | cons op rest ih => exact ih _ (storeInv_applyOp s op h)

theorem storeInv_runOps (ops : List Op) : StoreInv (runOps ops) :=
  storeInv_runFrom initStore ops storeInv_init

theorem idAbsent_applyOp (id : Int) (s : Store) (op : Op)
    (h : idAbsent id s) : idAbsent id (applyOp s op) := by
  obtain ⟨h1, h2⟩ := h
  cases op with
  | create tx =>
      by_cases hv : taskCreateValid tx = true
      · rw [applyOp_create_valid s tx hv]
        refine ⟨?_, ?_⟩
        · show id < s.next_task_id + 1
          omega
        · intro t ht
          simp only [List.mem_append, List.mem_singleton] at ht
          rcases ht with ht | rfl
          · exact h2 t ht
          · show s.next_task_id ≠ id
            omega
      · rw [applyOp_create_invalid s tx hv]
        exact ⟨h1, h2⟩
  | delete did =>
      cases hf : find_task_by_id s did with
      | none =>
          rw [applyOp_delete, hf]
          exact ⟨h1, h2⟩
      | some t =>
          rw [applyOp_delete, hf]
          exact ⟨h1, fun u hu => h2 u (List.mem_of_mem_erase hu)⟩

theorem idAbsent_runFrom (id : Int) (s : Store) (ops : List Op)
    (h : idAbsent id s) : idAbsent id (runFrom s ops) := by
  induction ops generalizing s with
  | nil => exact h
  | cons op rest ih => exact ih _ (idAbsent_applyOp id s op h)

theorem createdTasks_length (texts : List String) (startId : Int) :
    (createdTasks texts startId).length = texts.length := by
  induction texts generalizing startId with
  | nil => rfl
  | cons tx rest ih => simp [createdTasks, ih]

theorem runFrom_creates (s : Store) (texts : List String)
    (hval : ∀ tx ∈ texts, taskCreateValid tx = true) :
    runFrom s (texts.map Op.create) =
      ⟨s.tasks_storage ++ createdTasks texts s.next_task_id,
       s.next_task_id + (texts.length : Int)⟩ := by
  induction texts generalizing s with
  | nil =>
      show s = _
      cases s with
      | mk tasks next => simp [createdTasks]
  | cons tx rest ih =>
      have hv := hval tx (List.mem_cons_self tx rest)
      have hrest : ∀ u ∈ rest, taskCreateValid u = true :=
        fun u hu => hval u (List.mem_cons_of_mem tx hu)
      have hstep : runFrom s ((tx :: rest).map Op.create) =
          runFrom (applyOp s (Op.create tx)) (rest.map Op.create) := rfl
      rw [hstep, applyOp_create_valid s tx hv, ih _ hrest]
      simp only [createdTasks]
      refine congrArg₂ Store.mk ?_ ?_
      · dsimp only
        rw [List.append_assoc, List.singleton_append]
      · dsimp only
        simp only [List.length_cons]
        push_cast
        ring

/-! ### Claim theorems -/

/-- C1, counterexample: the claim says create rejects whitespace-only
input and stored text is never empty, because the 1–200 length bound is
checked after trimming. In the code pydantic checks the raw length before
`create_task_object` strips, so the three-space string passes validation
and is stored as the empty string. -/
theorem C1_counterexample :
    taskCreateValid "   " = true ∧
    (runOps [Op.create "   "]).tasks_storage = [⟨1, ""⟩] ∧
    ¬ (∀ t ∈ (runOps [Op.create "   "]).tasks_storage, t.text ≠ "") := by
  refine ⟨by decide, by decide, ?_⟩
  intro h
  exact h ⟨1, ""⟩ (by decide) rfl

set_option maxRecDepth 4000 in
/-- C1, amended: for every stored task at any reachable state, the text
is at most 200 characters long; create rejects input whose untrimmed
length is 0 or exceeds 200, but accepts whitespace-only input of
untrimmed length 1–200 and stores it with empty trimmed text, so stored
text may be empty. -/
theorem C1_stored_text_bounds (ops : List Op) :
    (∀ t ∈ (runOps ops).tasks_storage, t.text.length ≤ 200) ∧
    taskCreateValid "" = false ∧
    taskCreateValid (String.mk (List.replicate 201 'x')) = false :=
  ⟨(storeInv_runOps ops).2.2.2, by decide, by decide⟩

/-- C1, witness for the amended theorem at a concrete run. -/
theorem C1_witness :
    (Task.mk 1 "hi").text.length ≤ 200 ∧ taskCreateValid "" = false :=
  ⟨(C1_stored_text_bounds [Op.create "hi"]).1 (Task.mk 1 "hi") (by decide),
   (C1_stored_text_bounds []).2.1⟩

/-- C2: over any request sequence served from module load, the ids
assigned by successive creates (with deletes interleaved arbitrarily) are
strictly increasing, hence pairwise distinct, so an id freed by a delete
is never handed out again. -/
theorem C2_issued_ids_strictly_increasing (ops : List Op) :
    (issued ops).Pairwise (fun a b => a < b) ∧ (issued ops).Nodup :=
  ⟨issuedFrom_pairwise initStore ops,
   (issuedFrom_pairwise initStore ops).imp ne_of_lt⟩

/-- C3: for any store and any text accepted by validation, `create_task`
returns the task with id equal to the current `next_task_id` and the
stripped text, appends exactly that task at the end of `tasks_storage`,
and increments `next_task_id` by one; it returns normally (no raised
condition exists in its type). -/
theorem C3_create_behavior (s : Store) (text : String)
    (h : taskCreateValid text = true) :
    (create_task s text).1 = TaskResponse.mk s.next_task_id (pyStrip text) ∧
    (create_task s text).2.tasks_storage =
      s.tasks_storage ++ [Task.mk s.next_task_id (pyStrip text)] ∧
    (create_task s text).2.next_task_id = s.next_task_id + 1 :=
  ⟨rfl, rfl, rfl⟩

/-- C3, witness: creating from the text with surrounding whitespace in
the spec example stores and returns the trimmed text with id 1. -/
theorem C3_witness :
    (create_task initStore "  buy milk  ").1 = TaskResponse.mk 1 "buy milk" ∧
    (create_task initStore "  buy milk  ").2.tasks_storage =
      [Task.mk 1 "buy milk"] ∧
    (create_task initStore "  buy milk  ").2.next_task_id = 2 := by
  have h := C3_create_behavior initStore "  buy milk  " (by decide)
  exact ⟨h.1.trans (by decide), h.2.1.trans (by decide), h.2.2.trans (by decide)⟩

/-- C7: `get_tasks` returns one response per stored task, in storage
(insertion) order, with the task's id and text, and returns the store
unchanged; its type admits no error. -/
theorem C7_list_pure (s : Store) :
    (get_tasks s).1 =
      s.tasks_storage.map (fun t => TaskResponse.mk t.id t.text) ∧
    (get_tasks s).2 = s :=
  ⟨rfl, rfl⟩

/-- C4: deleting an id that no stored task bears (never issued, or
already deleted) raises the 404 HTTPException whose detail names that id,
and serving the request leaves the store — task sequence and counter —
exactly as it was. -/
theorem C4_delete_absent (s : Store) (id : Int)
    (h : ∀ t ∈ s.tasks_storage, t.id ≠ id) :
    delete_task s id = Except.error ⟨404, notFoundDetail id⟩ ∧
    applyOp s (Op.delete id) = s := by
  have hf : find_task_by_id s id = none := by
    apply List.find?_eq_none.mpr
    intro t ht
    simpa using h t ht
  refine ⟨?_, ?_⟩
  · simp [delete_task, hf]
  · rw [applyOp_delete, hf]

/-- C4, witness: deleting id 2 when only id 1 exists fails with 404 and
changes nothing. -/
theorem C4_witness :
    delete_task (runOps [Op.create "a"]) 2 =
      Except.error ⟨404, notFoundDetail 2⟩ ∧
    applyOp (runOps [Op.create "a"]) (Op.delete 2) =
      runOps [Op.create "a"] :=
  C4_delete_absent (runOps [Op.create "a"]) 2 (by decide)

/-- C5: in any reachable store, deleting an id borne by a stored task
succeeds: it returns the confirmation carrying that task's original id
and text, and the task's id occurs in no later `get_tasks` result, no
matter what requests follow. -/
theorem C5_delete_present (ops : List Op) (id : Int) (t : Task)
    (h : find_task_by_id (runOps ops) id = some t) :
    t.id = id ∧
    ∃ s', delete_task (runOps ops) id =
        Except.ok (⟨deletedMessage id, ⟨t.id, t.text⟩⟩, s') ∧
      ∀ rest : List Op, ∀ r ∈ (get_tasks (runFrom s' rest)).1, r.id ≠ id := by
  obtain ⟨h1, h2, h3, h4⟩ := storeInv_runOps ops
  have hid : t.id = id := by simpa using List.find?_some h
  refine ⟨hid,
    ⟨{ runOps ops with
        tasks_storage := (runOps ops).tasks_storage.erase t }, ?_, ?_⟩⟩
  · simp [delete_task, h]
  · obtain ⟨l1, l2, hsplit, hl1⟩ := find?_split _ _ t h
    have htmem : t ∈ (runOps ops).tasks_storage :=
      List.mem_of_find?_eq_some h
    have htnotl1 : t ∉ l1 := by
      intro hmem
      have := hl1 t hmem
      simp [hid] at this
    have herase : (runOps ops).tasks_storage.erase t = l1 ++ l2 := by
      rw [hsplit]
      exact erase_first l1 l2 t htnotl1
    have hpw := h3
    rw [hsplit, List.pairwise_append] at hpw
    obtain ⟨hpl1, hpl2, hcross⟩ := hpw
    have habs : idAbsent id
        { runOps ops with
          tasks_storage := (runOps ops).tasks_storage.erase t } := by
      constructor
      · show id < (runOps ops).next_task_id
        have := h2 t htmem
        omega
      · show ∀ u ∈ (runOps ops).tasks_storage.erase t, u.id ≠ id
        rw [herase]
        intro u hu
        rcases List.mem_append.mp hu with hu | hu
        · have hne := hcross u hu t (List.mem_cons_self t l2)
          rw [hid] at hne
          exact hne
        · have hne := (List.pairwise_cons.mp hpl2).1 u hu
          rw [hid] at hne
          exact hne.symm
    intro rest r hr
    have habs2 := idAbsent_runFrom id _ rest habs
    simp only [get_tasks, List.mem_map] at hr
    obtain ⟨u, hu, rfl⟩ := hr
    exact habs2.2 u hu

/-- C5, witness: deleting id 1 right after creating task "a". -/
theorem C5_witness :
    (Task.mk 1 "a").id = 1 ∧
    ∃ s', delete_task (runOps [Op.create "a"]) 1 =
        Except.ok (⟨deletedMessage 1, ⟨(Task.mk 1 "a").id,
          (Task.mk 1 "a").text⟩⟩, s') ∧
      ∀ rest : List Op, ∀ r ∈ (get_tasks (runFrom s' rest)).1, r.id ≠ 1 :=
  C5_delete_present [Op.create "a"] 1 (Task.mk 1 "a") (by decide)

/-- C6: creating N tasks from the initial store then deleting the first
stores exactly the N expected tasks, removes exactly the first one in
place, and leaves the surviving N-1 tasks in their original relative
order with their ids untouched. -/
theorem C6_create_then_delete_first (texts : List String)
    (hne : texts ≠ [])
    (hval : ∀ tx ∈ texts, taskCreateValid tx = true) :
    (runOps (texts.map Op.create)).tasks_storage = createdTasks texts 1 ∧
    (runOps (texts.map Op.create ++ [Op.delete 1])).tasks_storage =
      (createdTasks texts 1).tail ∧
    (createdTasks texts 1).tail.length + 1 = texts.length := by
  obtain ⟨tx, rest, rfl⟩ : ∃ a l, texts = a :: l := by
    cases texts with
    | nil => exact absurd rfl hne
    | cons a l => exact ⟨a, l, rfl⟩
  have hrun : runOps ((tx :: rest).map Op.create) =
      ⟨createdTasks (tx :: rest) 1, 1 + (((tx :: rest).length : Nat) : Int)⟩ := by
    have hc := runFrom_creates initStore (tx :: rest) hval
    simpa [runOps, initStore] using hc
  have hcons : createdTasks (tx :: rest) 1 =
      ⟨1, pyStrip tx⟩ :: createdTasks rest 2 := rfl
  refine ⟨by rw [hrun], ?_, ?_⟩
  · have hsplit : runOps ((tx :: rest).map Op.create ++ [Op.delete 1]) =
        runFrom (runOps ((tx :: rest).map Op.create)) [Op.delete 1] :=
      runFrom_append initStore _ _
    rw [hsplit, hrun, runFrom_cons, runFrom_nil, applyOp_delete]
    have hfind : find_task_by_id
        (⟨createdTasks (tx :: rest) 1,
          1 + (((tx :: rest).length : Nat) : Int)⟩ : Store) 1 =
        some ⟨1, pyStrip tx⟩ := by
      show (createdTasks (tx :: rest) 1).find? (fun u => u.id == 1) = _
      rw [hcons]
      exact List.find?_cons_of_pos _ (by simp)
    rw [hfind]
    show (createdTasks (tx :: rest) 1).erase ⟨1, pyStrip tx⟩ = _
    rw [hcons, List.erase_cons_head, List.tail_cons]
  · rw [hcons, List.tail_cons, createdTasks_length]
    simp

/-- C6, witness at two concrete tasks. -/
theorem C6_witness :
    (runOps (["a", "b"].map Op.create)).tasks_storage =
      createdTasks ["a", "b"] 1 ∧
    (runOps (["a", "b"].map Op.create ++ [Op.delete 1])).tasks_storage =
      (createdTasks ["a", "b"] 1).tail ∧
    (createdTasks ["a", "b"] 1).tail.length + 1 = ["a", "b"].length :=
  C6_create_then_delete_first ["a", "b"] (by decide) (by decide)

/-- C8: the counter starts at 1, each boundary-accepted create increments
it by exactly one, no request ever decreases it, and in the state reached
by any request sequence it is strictly greater than every id issued
during that sequence. -/
theorem C8_counter_properties (ops : List Op) :
    initStore.next_task_id = 1 ∧
    (∀ s tx, taskCreateValid tx = true →
      (applyOp s (Op.create tx)).next_task_id = s.next_task_id + 1) ∧
    (∀ s op, s.next_task_id ≤ (applyOp s op).next_task_id) ∧
    (∀ i ∈ issued ops, i < (runOps ops).next_task_id) := by
  refine ⟨rfl, ?_, next_le_applyOp, issuedFrom_upper initStore ops⟩
  intro s tx h
  rw [applyOp_create_valid s tx h]

/-- C8, witness at a concrete create. -/
theorem C8_witness :
    (applyOp initStore (Op.create "a")).next_task_id =
      initStore.next_task_id + 1 ∧
    (1 : Int) < (runOps [Op.create "a"]).next_task_id :=
  ⟨(C8_counter_properties []).2.1 initStore "a" (by decide),
   (C8_counter_properties [Op.create "a"]).2.2.2 1 (by decide)⟩

/-- C9: the scenario create "a", create "b", delete 1, list, delete 1:
both texts pass validation, the creates assign ids 1 and 2, the first
delete succeeds returning task 1 with text "a", the listing then shows
exactly task 2 with text "b", and the second delete of id 1 raises 404. -/
theorem C9_scenario :
    taskCreateValid "a" = true ∧
    taskCreateValid "b" = true ∧
    (create_task initStore "a").1 = TaskResponse.mk 1 "a" ∧
    (create_task initStore "a").2 = ⟨[⟨1, "a"⟩], 2⟩ ∧
    (create_task (⟨[⟨1, "a"⟩], 2⟩ : Store) "b").1 = TaskResponse.mk 2 "b" ∧
    (create_task (⟨[⟨1, "a"⟩], 2⟩ : Store) "b").2 =
      ⟨[⟨1, "a"⟩, ⟨2, "b"⟩], 3⟩ ∧
    delete_task (⟨[⟨1, "a"⟩, ⟨2, "b"⟩], 3⟩ : Store) 1 =
      Except.ok (⟨deletedMessage 1, TaskResponse.mk 1 "a"⟩,
        ⟨[⟨2, "b"⟩], 3⟩) ∧
    (get_tasks (⟨[⟨2, "b"⟩], 3⟩ : Store)).1 = [TaskResponse.mk 2 "b"] ∧
    delete_task (⟨[⟨2, "b"⟩], 3⟩ : Store) 1 =
      Except.error ⟨404, notFoundDetail 1⟩ := by
  refine ⟨?_, ?_, ?_, ?_, ?_, ?_, ?_, ?_, ?_⟩ <;> rfl

/-- C10: serving a delete request, whether it removes a task or raises
404, leaves `next_task_id` exactly as it was. -/
theorem C10_delete_preserves_counter (s : Store) (id : Int) :
    (applyOp s (Op.delete id)).next_task_id = s.next_task_id := by
  cases hf : find_task_by_id s id <;> rw [applyOp_delete, hf]

end TodoList
